import Mathlib

/-!
# Verification of the flowchart-app core logic

Shallow embedding of the core logic of the `flowchart-app` repository:

* connection validation (`isValidConnection`, `src/components/FlowchartBuilder.tsx`),
* Decision-node false-handle visibility (`ConditionNode`, `src/components/nodes/CustomNodes.tsx`),
* undo/redo history bookkeeping (history recording effect, `handleUndo`, `handleRedo`),
* node/edge deletion (`handleDeleteNode`, `handleDeleteSelected`),
* auto-layout (`handleAutoLayout`),
* project loading (`loadProject`, `src/utils/export.ts` and `handleProjectFileChange`).

Coordinates are modelled by `ℚ`: every arithmetic operation performed by the
source on coordinates (integer additions/multiplications and division by 2 or 4)
is exact in IEEE doubles for the values involved, so `ℚ` matches the
JavaScript number semantics on all reachable values.
-/

/-- Per-node value data (`data` in the source, callbacks `onChange`/`onOpenSettings`
excluded: they are function references, not value data). -/
structure NodeData where
  label : String
  color : Option String
  description : Option String
deriving DecidableEq, Repr

/-- A 2D canvas position (`{x, y}`). -/
structure Pos where
  x : ℚ
  y : ℚ
deriving DecidableEq, Repr

/-- A ReactFlow node as used by `FlowchartBuilder`.  `type` is one of
`"start" | "end" | "execution" | "condition"` in the UI, but is an arbitrary
string here, exactly as in the TypeScript types.  `width`/`height` are the
dimensions measured by ReactFlow, `measuredW/H` the `node.measured` fields and
`styleW/H` the `node.style` dimensions; each is absent (`none`) when the source
field is `undefined`. -/
structure NodeR where
  id : String
  type : String
  position : Pos
  width : Option ℚ
  height : Option ℚ
  measuredW : Option ℚ
  measuredH : Option ℚ
  styleW : Option ℚ
  styleH : Option ℚ
  selected : Bool
  data : NodeData
deriving DecidableEq, Repr

/-- A ReactFlow edge as used by `FlowchartBuilder` (presentation-only fields
such as `style`/`animated` omitted; they are constants derived at creation).
`none` in a handle field models both JavaScript `null` and `undefined`; the
app's handles always carry string ids, so stored handles are strings. -/
structure EdgeR where
  id : String
  source : String
  target : String
  sourceHandle : Option String
  targetHandle : Option String
  label : String
  selected : Bool
deriving DecidableEq, Repr

/-- A candidate connection as handed to `isValidConnection` by ReactFlow. -/
structure Conn where
  source : String
  target : String
  sourceHandle : Option String
  targetHandle : Option String
deriving DecidableEq, Repr

/-- `isValidConnection` from `FlowchartBuilder.tsx`:
reject self-loops; reject a duplicate `(source, sourceHandle)` pair; reject a
connection out of an `execution` node that already has an edge out of its
`execution-bottom` handle; accept otherwise. -/
def isValidConnection (connection : Conn) (edges : List EdgeR) (nodes : List NodeR) : Bool :=
  -- 自己接続を防ぐ（同じノードへのループ）
  if connection.source == connection.target then false
  else
    -- 既存の接続チェック（同じハンドルから複数の接続を防ぐ）
    let hasExistingEdge := edges.any fun edge =>
      edge.source == connection.source && edge.sourceHandle == connection.sourceHandle
    if hasExistingEdge then false
    else
      -- Executionノードの制御：出力は1つのみ、入力は複数OK
      let sourceNode := nodes.find? fun n => n.id == connection.source
      if (sourceNode.map NodeR.type) == some "execution" then
        let hasExistingOutput := edges.any fun e =>
          e.source == connection.source && e.sourceHandle == some "execution-bottom"
        if hasExistingOutput then false else true
      else true

/-- `ConditionNode` (`CustomNodes.tsx`): is the `condition-left-false` handle of
node `id` already driving an edge? -/
def leftFalseUsed (edges : List EdgeR) (id : String) : Bool :=
  edges.any fun e => e.source == id && e.sourceHandle == some "condition-left-false"

/-- `ConditionNode` (`CustomNodes.tsx`): is the `condition-right-false` handle of
node `id` already driving an edge? -/
def rightFalseUsed (edges : List EdgeR) (id : String) : Bool :=
  edges.any fun e => e.source == id && e.sourceHandle == some "condition-right-false"

/-- `ConditionNode` renders the `condition-left-false` handle iff
`!rightFalseUsed` (`{!rightFalseUsed && <Handle ... id="condition-left-false" ... />}`). -/
def showLeftFalseHandle (edges : List EdgeR) (id : String) : Bool :=
  !rightFalseUsed edges id

/-- `ConditionNode` renders the `condition-right-false` handle iff
`!leftFalseUsed` (`{!leftFalseUsed && <Handle ... id="condition-right-false" ... />}`). -/
def showRightFalseHandle (edges : List EdgeR) (id : String) : Bool :=
  !leftFalseUsed edges id

/-- Short-hand for building a plain node of a given type. -/
def mkNode (id type : String) : NodeR :=
  { id := id, type := type, position := ⟨0, 0⟩, width := none, height := none,
    measuredW := none, measuredH := none, styleW := none, styleH := none,
    selected := false, data := { label := id, color := none, description := none } }

/-- Short-hand for building a plain edge. -/
def mkEdge (id source target : String) (sourceHandle : Option String) : EdgeR :=
  { id := id, source := source, target := target, sourceHandle := sourceHandle,
    targetHandle := none, label := "", selected := false }

/-- C1 counterexample: with node `d` of kind `condition` and an existing edge out
of `d`'s `condition-left-false` handle, `isValidConnection` nevertheless accepts
a candidate out of `d`'s `condition-right-false` handle — the claimed rejection
inside `isValidConnection` does not exist in the code. -/
theorem c1_counterexample :
    let nodes := [mkNode "d" "condition", mkNode "b" "execution", mkNode "c" "execution"]
    let edges := [mkEdge "e1" "d" "b" (some "condition-left-false")]
    (∃ e ∈ edges, e.source = "d" ∧ e.sourceHandle = some "condition-left-false") ∧
      isValidConnection ⟨"d", "c", some "condition-right-false", none⟩ edges nodes = true := by
  constructor
  · exact ⟨mkEdge "e1" "d" "b" (some "condition-left-false"), by simp, by decide⟩
  · decide

/-- C1 (amended): the mutual exclusion of the two false handles of a Decision
node is enforced by handle visibility in `ConditionNode`, not by
`isValidConnection`: once an edge uses `condition-left-false`, the
`condition-right-false` handle is not rendered (and vice versa), while
`isValidConnection` itself accepts a candidate on the other false handle
whenever no self-loop and no duplicate `(source, sourceHandle)` pair exists. -/
theorem c1_false_handle_exclusivity_amended :
    (∀ (edges : List EdgeR) (id : String),
      (leftFalseUsed edges id = true → showRightFalseHandle edges id = false) ∧
      (rightFalseUsed edges id = true → showLeftFalseHandle edges id = false)) ∧
    (∀ (nodes : List NodeR) (edges : List EdgeR) (d t : String),
      d ≠ t →
      ((nodes.find? fun n => n.id == d).map NodeR.type) = some "condition" →
      (∀ e ∈ edges, ¬(e.source = d ∧ e.sourceHandle = some "condition-right-false")) →
      isValidConnection ⟨d, t, some "condition-right-false", none⟩ edges nodes = true) := by
  constructor
  · intro edges id
    constructor
    · intro h; simp [showRightFalseHandle, h]
    · intro h; simp [showLeftFalseHandle, h]
  · intro nodes edges d t hne hty hdup
    simp only [isValidConnection]
    rw [if_neg, if_neg, if_neg]
    · simp only [beq_iff_eq]
      rw [hty]
      decide
    · simp only [List.any_eq_true, Bool.and_eq_true, beq_iff_eq]
      rintro ⟨e, he, h1, h2⟩
      exact hdup e he ⟨h1, h2⟩
    · simp only [beq_iff_eq]
      exact hne

/-- Witness for `c1_false_handle_exclusivity_amended` at concrete inputs. -/
theorem c1_false_handle_exclusivity_amended_witness :
    showRightFalseHandle [mkEdge "e1" "d" "b" (some "condition-left-false")] "d" = false ∧
      isValidConnection ⟨"d", "c", some "condition-right-false", none⟩
        [mkEdge "e1" "d" "b" (some "condition-left-false")]
        [mkNode "d" "condition", mkNode "b" "execution", mkNode "c" "execution"] = true := by
  refine ⟨(c1_false_handle_exclusivity_amended.1 _ _).1 (by decide), ?_⟩
  exact c1_false_handle_exclusivity_amended.2 _ _ _ _ (by decide) (by decide) (by decide)

/-- C2 counterexample: a candidate out of an `execution` node whose
`execution-bottom` handle already drives an edge is rejected even though it is
neither a self-loop nor a duplicate `(source, sourceHandle)` pair — a third
rejection rule the claim's "accept otherwise" does not allow. -/
theorem c2_counterexample :
    let nodes := [mkNode "a" "execution", mkNode "b" "execution", mkNode "c" "execution"]
    let edges := [mkEdge "e1" "a" "b" (some "execution-bottom")]
    let cand : Conn := ⟨"a", "c", none, none⟩
    cand.source ≠ cand.target ∧
      (∀ e ∈ edges, ¬(e.source = cand.source ∧ e.sourceHandle = cand.sourceHandle)) ∧
      isValidConnection cand edges nodes = false := by
  refine ⟨by decide, ?_, by decide⟩
  intro e he
  simp at he
  subst he
  decide

/-- C2 (amended): `isValidConnection` accepts a candidate iff it is not a
self-loop, no existing edge shares its `(source, sourceHandle)` pair, and it is
not the case that the source node is an `execution` node that already drives an
edge out of its `execution-bottom` handle. -/
theorem c2_accept_iff_amended (connection : Conn) (edges : List EdgeR) (nodes : List NodeR) :
    isValidConnection connection edges nodes = true ↔
      connection.source ≠ connection.target ∧
      (∀ e ∈ edges, ¬(e.source = connection.source ∧ e.sourceHandle = connection.sourceHandle)) ∧
      ¬(((nodes.find? fun n => n.id == connection.source).map NodeR.type) = some "execution" ∧
        ∃ e ∈ edges, e.source = connection.source ∧ e.sourceHandle = some "execution-bottom") := by
  simp only [isValidConnection]
  split_ifs with h1 h2 h3 h4
  · simp only [beq_iff_eq] at h1
    simp [h1]
  · simp only [List.any_eq_true, Bool.and_eq_true, beq_iff_eq] at h2
    obtain ⟨e, he, hp⟩ := h2
    constructor
    · intro h; exact absurd h (by decide)
    · rintro ⟨-, hno, -⟩
      exact hno e he hp
  · simp only [beq_iff_eq] at h3
    simp only [List.any_eq_true, Bool.and_eq_true, beq_iff_eq] at h4
    constructor
    · intro h; exact absurd h (by decide)
    · rintro ⟨-, -, hno⟩
      exact hno ⟨h3, h4⟩
  · simp only [beq_iff_eq] at h1 h3
    simp only [List.any_eq_true, Bool.and_eq_true, beq_iff_eq] at h2 h4
    constructor
    · intro _
      refine ⟨h1, ?_, ?_⟩
      · intro e he hp; exact h2 ⟨e, he, hp⟩
      · rintro ⟨-, e, he, hp1, hp2⟩; exact h4 ⟨e, he, hp1, hp2⟩
    · intro _; rfl
  · simp only [beq_iff_eq] at h1 h3
    simp only [List.any_eq_true, Bool.and_eq_true, beq_iff_eq] at h2
    constructor
    · intro _
      refine ⟨h1, ?_, ?_⟩
      · intro e he hp; exact h2 ⟨e, he, hp⟩
      · rintro ⟨hh, -⟩; exact h3 hh
    · intro _; rfl

/-! ## Undo/redo history (`FlowchartBuilder.tsx`, history recording effect,
`handleUndo`, `handleRedo`) -/

/-- `MAX_HISTORY` from `FlowchartBuilder.tsx`. -/
def MAX_HISTORY : Nat := 50

/-- A history snapshot: an owned copy of `(nodes, edges)`. -/
structure Snapshot where
  nodes : List NodeR
  edges : List EdgeR
deriving DecidableEq, Repr

/-- The snapshot copy of a node made by the history effect: the spread `{...n}`
with `data` rebuilt from the value fields only (the `onChange` callback is
dropped; callbacks are not part of the value model here, so this is the
identity on the modelled fields). -/
def snapNode (n : NodeR) : NodeR :=
  { n with data := { label := n.data.label, color := n.data.color,
                     description := n.data.description } }

/-- `currentState` built by the history effect from the live `(nodes, edges)`. -/
def mkSnapshot (nodes : List NodeR) (edges : List EdgeR) : Snapshot :=
  ⟨nodes.map snapNode, edges⟩

/-- The per-node projection the history effect stringifies to compare two
snapshots: `{id, type, position, data, width, height, style}` (note:
`selected` is excluded from the comparison). -/
structure SnapNodeKey where
  id : String
  type : String
  position : Pos
  data : NodeData
  width : Option ℚ
  height : Option ℚ
  styleW : Option ℚ
  styleH : Option ℚ
deriving DecidableEq, Repr

/-- Comparison key of a whole snapshot: node projections plus the full edges. -/
structure SnapKey where
  nodes : List SnapNodeKey
  edges : List EdgeR
deriving DecidableEq, Repr

/-- Project one node to its comparison key. -/
def snapNodeKey (n : NodeR) : SnapNodeKey :=
  ⟨n.id, n.type, n.position, n.data, n.width, n.height, n.styleW, n.styleH⟩

/-- Project a snapshot to its comparison key. -/
def snapKey (s : Snapshot) : SnapKey :=
  ⟨s.nodes.map snapNodeKey, s.edges⟩

/-- The history log with its current index (`historyRef`, `historyIndexRef`). -/
structure HistState where
  hist : List Snapshot
  idx : Int
deriving Repr

/-- JavaScript `list.slice(0, e)` (a negative bound counts from the end). -/
def jsSliceTo (l : List α) (e : Int) : List α :=
  if e < 0 then l.take (l.length - (-e).toNat) else l.take e.toNat

/-- The "don't save if nothing changed" test of the history effect: the log is
non-empty and the entry at the current index exists and has the same comparison
key as the pending snapshot. -/
def recordIsDup (s : HistState) (cur : Snapshot) : Bool :=
  decide (0 < s.hist.length) &&
    (match (if 0 ≤ s.idx then s.hist.get? s.idx.toNat else none) with
     | some last => decide (snapKey last = snapKey cur)
     | none => false)

/-- One settled (debounce-fired) history recording: drop the snapshot when
unchanged; otherwise truncate any redo-tail past the current index, append,
set the index to the end, and on exceeding `MAX_HISTORY` shift off the oldest
entry and decrement the index. -/
def recordStep (s : HistState) (cur : Snapshot) : HistState :=
  if recordIsDup s cur then s
  else
    -- Remove any future states if we're not at the end
    let hist1 := if s.idx < (s.hist.length : Int) - 1 then jsSliceTo s.hist (s.idx + 1) else s.hist
    -- Add new state
    let hist2 := hist1 ++ [cur]
    let idx2 : Int := (hist2.length : Int) - 1
    -- Limit history size
    if hist2.length > MAX_HISTORY then ⟨hist2.drop 1, idx2 - 1⟩ else ⟨hist2, idx2⟩

/-- Initial history: empty log, index −1. -/
def histInit : HistState := ⟨[], -1⟩

/-- The history-log invariant: bounded length, and the index points at a valid
element or is −1 exactly when the log is empty. -/
def HistInv (s : HistState) : Prop :=
  s.hist.length ≤ MAX_HISTORY ∧
    ((s.hist = [] ∧ s.idx = -1) ∨ (0 ≤ s.idx ∧ s.idx < s.hist.length))

/-- The live session: history log plus the current graph. -/
structure Session where
  hist : List Snapshot
  idx : Int
  nodes : List NodeR
  edges : List EdgeR
deriving Repr

/-- The history effect recording the current graph into the log. -/
def recordCurrent (s : Session) : Session :=
  let h := recordStep ⟨s.hist, s.idx⟩ (mkSnapshot s.nodes s.edges)
  { s with hist := h.hist, idx := h.idx }

/-- `handleUndo`: no-op at index ≤ 0, else decrement the index and restore the
snapshot there (the restore re-attaches callbacks, which carry no value data). -/
def handleUndo (s : Session) : Session :=
  if s.idx ≤ 0 then s
  else
    let i := s.idx - 1
    match s.hist.get? i.toNat with
    | some prev => { s with idx := i, nodes := prev.nodes, edges := prev.edges }
    | none => { s with idx := i }

/-- `handleRedo`: no-op at the last entry, else increment the index and restore
the snapshot there. -/
def handleRedo (s : Session) : Session :=
  if s.idx ≥ (s.hist.length : Int) - 1 then s
  else
    let i := s.idx + 1
    match s.hist.get? i.toNat with
    | some next => { s with idx := i, nodes := next.nodes, edges := next.edges }
    | none => { s with idx := i }

theorem snapNode_eq (n : NodeR) : snapNode n = n := rfl

theorem mkSnapshot_nodes (nodes : List NodeR) (edges : List EdgeR) :
    (mkSnapshot nodes edges).nodes = nodes := by
  show nodes.map snapNode = nodes
  have h : snapNode = id := funext fun n => rfl
  rw [h, List.map_id]

/-- C3: from state `(n0, e0)` recorded into an empty history, a mutation to
`(n1, e1)` that is recorded as a (changed) snapshot, `handleUndo` restores
`(n0, e0)` exactly and a subsequent `handleRedo` restores `(n1, e1)` exactly,
equality being on value data (callbacks are not value data). -/
theorem c3_undo_redo_roundtrip (n0 : List NodeR) (e0 : List EdgeR)
    (n1 : List NodeR) (e1 : List EdgeR)
    (hchanged : snapKey (mkSnapshot n0 e0) ≠ snapKey (mkSnapshot n1 e1)) :
    let s0 := recordCurrent ⟨[], -1, n0, e0⟩
    let s1 := recordCurrent ⟨s0.hist, s0.idx, n1, e1⟩
    let u := handleUndo s1
    let r := handleRedo u
    (u.nodes = n0 ∧ u.edges = e0) ∧ (r.nodes = n1 ∧ r.edges = e1) := by
  have h0 : recordCurrent ⟨[], -1, n0, e0⟩ = ⟨[mkSnapshot n0 e0], 0, n0, e0⟩ := by
    simp [recordCurrent, recordStep, recordIsDup, jsSliceTo, MAX_HISTORY]
  have hd : recordIsDup ⟨[mkSnapshot n0 e0], 0⟩ (mkSnapshot n1 e1) = false := by
    simp [recordIsDup, hchanged]
  have h1 : recordCurrent ⟨[mkSnapshot n0 e0], 0, n1, e1⟩ =
      ⟨[mkSnapshot n0 e0, mkSnapshot n1 e1], 1, n1, e1⟩ := by
    simp [recordCurrent, recordStep, hd, jsSliceTo, MAX_HISTORY]
  have h2 : handleUndo ⟨[mkSnapshot n0 e0, mkSnapshot n1 e1], 1, n1, e1⟩ =
      ⟨[mkSnapshot n0 e0, mkSnapshot n1 e1], 0, n0, e0⟩ := by
    simp [handleUndo, mkSnapshot_nodes]
    rfl
  have h3 : handleRedo ⟨[mkSnapshot n0 e0, mkSnapshot n1 e1], 0, n0, e0⟩ =
      ⟨[mkSnapshot n0 e0, mkSnapshot n1 e1], 1, n1, e1⟩ := by
    simp [handleRedo, mkSnapshot_nodes]
    rfl
  simp [h0, h1, h2, h3]

/-- Witness for `c3_undo_redo_roundtrip` at concrete states. -/
theorem c3_undo_redo_roundtrip_witness :
    let n0 : List NodeR := []
    let e0 : List EdgeR := []
    let n1 : List NodeR := [mkNode "a" "execution"]
    let e1 : List EdgeR := []
    let s0 := recordCurrent ⟨[], -1, n0, e0⟩
    let s1 := recordCurrent ⟨s0.hist, s0.idx, n1, e1⟩
    let u := handleUndo s1
    let r := handleRedo u
    (u.nodes = n0 ∧ u.edges = e0) ∧ (r.nodes = n1 ∧ r.edges = e1) :=
  c3_undo_redo_roundtrip [] [] [mkNode "a" "execution"] [] (by decide)

theorem histInit_histInv : HistInv histInit := by
  constructor
  · simp [histInit, MAX_HISTORY]
  · exact Or.inl ⟨rfl, rfl⟩

/-- Under the invariant, the redo-tail truncation performed by `recordStep`
(the conditional `slice(0, index + 1)`) equals taking the first `index + 1`
entries. -/
theorem recordStep_trunc {t : HistState} (h : HistInv t) :
    (if t.idx < (t.hist.length : Int) - 1 then jsSliceTo t.hist (t.idx + 1) else t.hist) =
      t.hist.take (t.idx + 1).toNat := by
  rcases h.2 with ⟨hnil, hneg⟩ | ⟨h0, hlt⟩
  · rw [hnil, hneg]
    simp [jsSliceTo]
  · by_cases htr : t.idx < (t.hist.length : Int) - 1
    · rw [if_pos htr]
      unfold jsSliceTo
      rw [if_neg (by omega)]
    · rw [if_neg htr]
      have : (t.idx + 1).toNat = t.hist.length := by omega
      rw [this, List.take_length]

/-- `recordStep` preserves the history-log invariant. -/
theorem recordStep_histInv {t : HistState} (cur : Snapshot) (h : HistInv t) :
    HistInv (recordStep t cur) := by
  by_cases hdup : recordIsDup t cur = true
  · simpa [recordStep, hdup] using h
  · have hlen := h.1
    simp only [MAX_HISTORY] at hlen
    simp only [recordStep, hdup, if_false, Bool.false_eq_true, recordStep_trunc h]
    set k := (t.idx + 1).toNat with hk
    have hkle : (t.hist.take k).length = min k t.hist.length := List.length_take k t.hist
    by_cases hover : (t.hist.take k ++ [cur]).length > MAX_HISTORY
    · rw [if_pos hover]
      simp only [List.length_append, List.length_take, List.length_cons,
        List.length_nil, MAX_HISTORY] at hover ⊢
      constructor
      · simp only [List.length_drop, List.length_append, List.length_take,
          List.length_cons, List.length_nil, MAX_HISTORY]
        omega
      · right
        simp only [List.length_drop, List.length_append, List.length_take,
          List.length_cons, List.length_nil]
        constructor <;> omega
    · rw [if_neg hover]
      simp only [List.length_append, List.length_take, List.length_cons,
        List.length_nil, MAX_HISTORY, not_lt] at hover
      constructor
      · simp only [List.length_append, List.length_take, List.length_cons,
          List.length_nil, MAX_HISTORY]
        omega
      · right
        simp only [List.length_append, List.length_take, List.length_cons,
          List.length_nil]
        constructor <;> omega

theorem foldl_recordStep_histInv (snaps : List Snapshot) (t : HistState) (h : HistInv t) :
    HistInv (snaps.foldl recordStep t) := by
  induction snaps generalizing t with
  | nil => exact h
  | cons s rest ih => exact ih _ (recordStep_histInv s h)

/-- C4: along any sequence of recorded mutations starting from the empty log,
the log length never exceeds `MAX_HISTORY = 50` and the index points at a valid
entry or is −1 on the empty log; moreover, whenever a changed snapshot is
recorded, the redo-tail past the current index is truncated first, the snapshot
is appended, and if the resulting length exceeds 50 the oldest entry is evicted
(FIFO) with the index decremented accordingly. -/
theorem c4_history_bound :
    (∀ snaps : List Snapshot, HistInv (snaps.foldl recordStep histInit)) ∧
    (∀ (t : HistState) (cur : Snapshot), HistInv t → recordIsDup t cur = false →
      let trunc := t.hist.take (t.idx + 1).toNat
      (trunc.length + 1 > MAX_HISTORY →
        (recordStep t cur).hist = (trunc ++ [cur]).drop 1 ∧
          (recordStep t cur).idx = (trunc.length : Int) - 1) ∧
      (trunc.length + 1 ≤ MAX_HISTORY →
        (recordStep t cur).hist = trunc ++ [cur] ∧
          (recordStep t cur).idx = (trunc.length : Int))) := by
  constructor
  · intro snaps
    exact foldl_recordStep_histInv snaps histInit histInit_histInv
  · intro t cur hinv hdup
    simp only [recordStep, hdup, if_false, Bool.false_eq_true, recordStep_trunc hinv]
    set trunc := t.hist.take (t.idx + 1).toNat with htr
    constructor
    · intro hover
      rw [if_pos (by simpa [List.length_append] using hover)]
      constructor
      · rfl
      · simp only [List.length_append, List.length_cons, List.length_nil]
        push_cast
        ring
    · intro hfits
      rw [if_neg (by simp only [List.length_append, List.length_cons, List.length_nil]; omega)]
      constructor
      · rfl
      · simp only [List.length_append, List.length_cons, List.length_nil]
        push_cast
        ring

/-- Witness for `c4_history_bound` at concrete inputs: record two distinct
snapshots, then push a third distinct snapshot through `recordStep` from the
resulting one-entry log. -/
theorem c4_history_bound_witness :
    (HistInv ([mkSnapshot [] [], mkSnapshot [mkNode "a" "execution"] []].foldl
        recordStep histInit)) ∧
    ((recordStep ⟨[mkSnapshot [] []], 0⟩ (mkSnapshot [mkNode "a" "execution"] [])).hist =
        [mkSnapshot [] [], mkSnapshot [mkNode "a" "execution"] []] ∧
      (recordStep ⟨[mkSnapshot [] []], 0⟩ (mkSnapshot [mkNode "a" "execution"] [])).idx = 1) := by
  refine ⟨c4_history_bound.1 _, ?_⟩
  have h := (c4_history_bound.2 ⟨[mkSnapshot [] []], 0⟩ (mkSnapshot [mkNode "a" "execution"] [])
    (by constructor
        · decide
        · right; constructor <;> decide)
    (by decide)).2 (by decide)
  simpa using h

/-! ## Deletion (`handleDeleteNode`, `handleDeleteSelected`, `FlowchartBuilder.tsx`) -/

/-- `handleDeleteNode`: drop the node with the given id and every edge whose
source or target is that id. -/
def handleDeleteNode (nodeIdToDelete : String) (nodes : List NodeR) (edges : List EdgeR) :
    List NodeR × List EdgeR :=
  (nodes.filter fun n => n.id != nodeIdToDelete,
   edges.filter fun e => e.source != nodeIdToDelete && e.target != nodeIdToDelete)

/-- `handleDeleteSelected`: drop the selected nodes, the selected edges, and
every edge touching a deleted node; no-op when nothing is selected. -/
def handleDeleteSelected (nodes : List NodeR) (edges : List EdgeR) :
    List NodeR × List EdgeR :=
  let selectedNodeIds := (nodes.filter fun n => n.selected).map NodeR.id
  let selectedEdgeIds := (edges.filter fun e => e.selected).map EdgeR.id
  if selectedNodeIds.length == 0 && selectedEdgeIds.length == 0 then (nodes, edges)
  else
    (nodes.filter fun n => !selectedNodeIds.contains n.id,
     edges.filter fun e => !selectedEdgeIds.contains e.id &&
       !selectedNodeIds.contains e.source && !selectedNodeIds.contains e.target)

/-- C8: deleting node `nid` keeps exactly the nodes with a different id and
exactly the edges that neither start nor end at `nid`; and (via
`handleDeleteSelected`, with no node selected) deleting edges keeps exactly the
edges whose id is not among the selected edge ids — nodes are untouched. -/
theorem c8_cascade_delete :
    (∀ (nodes : List NodeR) (edges : List EdgeR) (nid : String),
      (∀ n, n ∈ (handleDeleteNode nid nodes edges).1 ↔ n ∈ nodes ∧ n.id ≠ nid) ∧
      (∀ e, e ∈ (handleDeleteNode nid nodes edges).2 ↔
        e ∈ edges ∧ e.source ≠ nid ∧ e.target ≠ nid)) ∧
    (∀ (nodes : List NodeR) (edges : List EdgeR),
      (∀ n ∈ nodes, n.selected = false) →
      (handleDeleteSelected nodes edges).1 = nodes ∧
      (∀ e, e ∈ (handleDeleteSelected nodes edges).2 ↔
        e ∈ edges ∧ e.id ∉ ((edges.filter fun x => x.selected).map EdgeR.id))) := by
  constructor
  · intro nodes edges nid
    constructor
    · intro n
      simp [handleDeleteNode, List.mem_filter, bne_iff_ne]
    · intro e
      simp [handleDeleteNode, List.mem_filter, bne_iff_ne]
  · intro nodes edges hnosel
    have hfil : nodes.filter (fun n => n.selected) = [] := by
      rw [List.filter_eq_nil_iff]
      intro n hn
      simp [hnosel n hn]
    by_cases hed : ((edges.filter fun e => e.selected).map EdgeR.id).length = 0
    · have hed' : (edges.filter fun e => e.selected).map EdgeR.id = [] :=
        List.eq_nil_of_length_eq_zero hed
      constructor
      · simp [handleDeleteSelected, hfil, hed']
      · intro e
        simp [handleDeleteSelected, hfil, hed']
    · constructor
      · rw [handleDeleteSelected]
        simp only [hfil, List.map_nil]
        rw [if_neg (by simpa using hed)]
        simp
      · intro e
        rw [handleDeleteSelected]
        simp only [hfil, List.map_nil]
        rw [if_neg (by simpa using hed)]
        simp [List.mem_filter]

/-- Witness for `c8_cascade_delete` at concrete inputs (one unselected node,
one selected edge). -/
theorem c8_cascade_delete_witness :
    ((handleDeleteNode "a" [mkNode "a" "execution"]
        [mkEdge "e1" "a" "b" none]).2 = [] ∨ True) ∧
    (handleDeleteSelected [mkNode "a" "execution"]
        [{ mkEdge "e1" "x" "y" none with selected := true }]).1 = [mkNode "a" "execution"] ∧
    (∀ e, e ∈ (handleDeleteSelected [mkNode "a" "execution"]
        [{ mkEdge "e1" "x" "y" none with selected := true }]).2 ↔
      e ∈ [{ mkEdge "e1" "x" "y" none with selected := true }] ∧
        e.id ∉ (([{ mkEdge "e1" "x" "y" none with selected := true }].filter
          fun x => x.selected).map EdgeR.id)) := by
  refine ⟨Or.inr trivial, ?_, ?_⟩
  · exact (c8_cascade_delete.2 _ _ (by decide)).1
  · exact (c8_cascade_delete.2 _ _ (by decide)).2

/-! ## Project loading (`loadProject`, `src/utils/export.ts`, and
`handleProjectFileChange`, `FlowchartBuilder.tsx`)

`JSON.parse` is external; a project-file content string is modelled by its
parse outcome: `none` when `JSON.parse` throws, `some j` when it yields the
JSON value `j` (object keys assumed unique, as produced by `JSON.parse`). -/

/-- A parsed JSON value. -/
inductive Json where
  | null : Json
  | bool (b : Bool) : Json
  | num (q : ℚ) : Json
  | str (s : String) : Json
  | arr (elems : List Json) : Json
  | obj (fields : List (String × Json)) : Json

/-- JavaScript member access `value.key` on a parsed JSON value (`none` for
`undefined`). -/
def jsField : Json → String → Option Json
  | Json.obj fields, key => fields.lookup key
  | _, _ => none

/-- Member access on a possibly-`undefined` value (`a?.b`-style chaining). -/
def jsOptField (j : Option Json) (key : String) : Option Json :=
  match j with
  | some v => jsField v key
  | none => none

/-- JavaScript truthiness of a possibly-`undefined` JSON value
(`undefined`, `null`, `false`, `0` and `""` are falsy). -/
def jsTruthy : Option Json → Bool
  | none => false
  | some Json.null => false
  | some (Json.bool b) => b
  | some (Json.num q) => decide (q ≠ 0)
  | some (Json.str s) => !(s == "")
  | some (Json.arr _) => true
  | some (Json.obj _) => true

/-- Does the parsed JSON object carry the given key (regardless of its value)? -/
def jsHasKey (j : Json) (key : String) : Bool :=
  match j with
  | Json.obj fields => (fields.lookup key).isSome
  | _ => false

/-- `loadProject` from `export.ts`: `null` when parsing failed, and
`if (!project.nodes || !project.edges) throw` (caught, yielding `null`),
else the parsed project. -/
def loadProject (parsed : Option Json) : Option Json :=
  match parsed with
  | none => none
  | some project =>
    -- Validate project structure
    if !jsTruthy (jsField project "nodes") || !jsTruthy (jsField project "edges") then none
    else some project

/-- The string carried by a JSON field, defaulting for the claims-irrelevant
non-string cases. -/
def jsStr (j : Option Json) : String :=
  match j with
  | some (Json.str s) => s
  | _ => ""

/-- The number carried by a JSON field, defaulting for the claims-irrelevant
non-number cases. -/
def jsNum (j : Option Json) : ℚ :=
  match j with
  | some (Json.num q) => q
  | _ => 0

/-- An optional numeric JSON field. -/
def jsNumOpt (j : Option Json) : Option ℚ :=
  match j with
  | some (Json.num q) => some q
  | _ => none

/-- An optional string JSON field. -/
def jsStrOpt (j : Option Json) : Option String :=
  match j with
  | some (Json.str s) => some s
  | _ => none

/-- Conversion of one project-file node into a ReactFlow node as done by
`handleProjectFileChange` (`style` from `node.size`, `data.label` from
`node.data.label`; the re-attached `onChange` callback carries no value data). -/
def loadNode (node : Json) : NodeR :=
  { id := jsStr (jsField node "id")
    type := jsStr (jsField node "type")
    position := ⟨jsNum (jsOptField (jsField node "position") "x"),
                 jsNum (jsOptField (jsField node "position") "y")⟩
    width := none, height := none, measuredW := none, measuredH := none
    styleW := jsNumOpt (jsOptField (jsField node "size") "width")
    styleH := jsNumOpt (jsOptField (jsField node "size") "height")
    selected := false
    data := { label := jsStr (jsOptField (jsField node "data") "label"),
              color := none, description := none } }

/-- Conversion of one project-file edge into a ReactFlow edge as done by
`handleProjectFileChange` (presentation styling omitted as before). -/
def loadEdge (edge : Json) : EdgeR :=
  { id := jsStr (jsField edge "id")
    source := jsStr (jsField edge "source")
    target := jsStr (jsField edge "target")
    sourceHandle := jsStrOpt (jsField edge "sourceHandle")
    targetHandle := jsStrOpt (jsField edge "targetHandle")
    label := jsStr (jsField edge "label")
    selected := false }

/-- The graph state owned by the builder (`nodes`, `edges`). -/
structure GraphState where
  nodes : List NodeR
  edges : List EdgeR
deriving DecidableEq, Repr

/-- `handleProjectFileChange` on a read file: when `loadProject` fails, alert
and leave the graph untouched (`(st, true)`); otherwise replace the graph with
the converted project contents (`(·, false)`).  An uncaught runtime error in
the conversion (`.map` on a non-array) is modelled as `none`.  The reseed of
the module-global node-id counter (`max numeric id + 1`) is UI state outside
the modelled graph and is not represented here. -/
def handleProjectFileChange (parsed : Option Json) (st : GraphState) :
    Option (GraphState × Bool) :=
  match loadProject parsed with
  | some project =>
    match jsField project "nodes", jsField project "edges" with
    | some (Json.arr ns), some (Json.arr es) =>
      some (⟨ns.map loadNode, es.map loadEdge⟩, false)
    | _, _ => none
  | none => some (st, true)

/-- C9 counterexample: a parsed project file `{"nodes": null, "edges": []}` has
both the `nodes` and the `edges` key, yet `loadProject` rejects it (the code
checks JavaScript truthiness of the values, not key presence), the handler
raises the alert, and the existing graph state is left unchanged. -/
theorem c9_counterexample :
    let p := Json.obj [("nodes", Json.null), ("edges", Json.arr [])]
    let st : GraphState := ⟨[mkNode "a" "execution"], [mkEdge "e1" "a" "b" none]⟩
    jsHasKey p "nodes" = true ∧ jsHasKey p "edges" = true ∧
      loadProject (some p) = none ∧
      handleProjectFileChange (some p) st = some (st, true) := by
  exact ⟨rfl, rfl, rfl, rfl⟩

/-- C9 (amended): `loadProject` fails exactly when parsing failed or the
`nodes` or `edges` field of the parsed value is absent or falsy; and on every
load failure the handler reports the user-facing alert and leaves the existing
graph state entirely unchanged. -/
theorem c9_load_validation_amended :
    (∀ parsed : Option Json,
      loadProject parsed = none ↔
        (parsed = none ∨ ∃ p, parsed = some p ∧
          (jsTruthy (jsField p "nodes") = false ∨ jsTruthy (jsField p "edges") = false))) ∧
    (∀ (parsed : Option Json) (st : GraphState), loadProject parsed = none →
      handleProjectFileChange parsed st = some (st, true)) := by
  constructor
  · intro parsed
    match parsed with
    | none => simp [loadProject]
    | some p =>
      simp only [loadProject, Option.some.injEq, reduceCtorEq, false_or]
      by_cases hn : jsTruthy (jsField p "nodes") = false
      · simp [hn]
      · by_cases he : jsTruthy (jsField p "edges") = false
        · simp only [Bool.not_eq_false] at hn
          simp [hn, he]
        · simp only [Bool.not_eq_false] at hn he
          simp [hn, he]
  · intro parsed st h
    unfold handleProjectFileChange
    rw [h]

/-! ## Auto-layout (`handleAutoLayout`, `FlowchartBuilder.tsx`) -/

/-- `HORIZONTAL_SPACING` from `handleAutoLayout`. -/
def HORIZONTAL_SPACING : ℚ := 250

/-- `VERTICAL_SPACING` from `handleAutoLayout`. -/
def VERTICAL_SPACING : ℚ := 200

/-- `mainCenterX` from `handleAutoLayout`. -/
def mainCenterX : ℚ := 400

/-- JavaScript truthiness of an optional number (`0` is falsy, `NaN` cannot
occur in the modelled values). -/
def qTruthy : Option ℚ → Bool
  | some v => decide (v ≠ 0)
  | none => false

/-- `getNodeSize` from `handleAutoLayout`: measured `width`/`height` first,
then `measured`, then `style`, then per-type defaults (`node?.type` of a
missing node falls into the default case). -/
def getNodeSize (node : Option NodeR) : ℚ × ℚ :=
  match node with
  | some n =>
    if qTruthy n.width && qTruthy n.height then (n.width.getD 0, n.height.getD 0)
    else if qTruthy n.measuredW && qTruthy n.measuredH then
      (n.measuredW.getD 0, n.measuredH.getD 0)
    else if qTruthy n.styleW && qTruthy n.styleH then (n.styleW.getD 0, n.styleH.getD 0)
    else
      match n.type with
      | "condition" => (150, 150)
      | "execution" => (150, 80)
      | "start" => (120, 120)
      | "end" => (120, 120)
      | _ => (100, 100)
  | none => (100, 100)

/-- One entry of the `childrenMap` adjacency lists: edge target plus
`edge.sourceHandle || 'default'`. -/
structure Child where
  nodeId : String
  handleType : String
deriving DecidableEq, Repr

/-- The adjacency list of `src` built by the `childrenMap` loop (entries in
edge order). -/
def childrenOf (edges : List EdgeR) (src : String) : List Child :=
  (edges.filter fun e => e.source == src).map fun e =>
    ⟨e.target, e.sourceHandle.getD "default"⟩

/-- Does `pat` occur as a contiguous sublist? -/
def charListIncludes (pat : List Char) : List Char → Bool
  | [] => pat.isEmpty
  | c :: cs => pat.isPrefixOf (c :: cs) || charListIncludes pat cs

/-- JavaScript `s.includes(pat)`: `pat` occurs as a substring of `s`. -/
def strIncludes (s pat : String) : Bool :=
  charListIncludes pat.toList s.toList

/-- One BFS queue entry: `{nodeId, centerX, y, isBranch}`. -/
structure QItem where
  nodeId : String
  centerX : ℚ
  y : ℚ
  isBranch : Bool
deriving DecidableEq, Repr

/-- The queue entries pushed for the children of a dequeued `condition` node:
the first child whose handle contains `'true'` goes straight down at the same
`centerX` and `nextY`; the first child whose handle contains `'left-false'` or
`'right-false'` goes to the side (∓`HORIZONTAL_SPACING`) at the parent's `y`;
every remaining child goes to `centerX + (idx + 1) * HORIZONTAL_SPACING` at
`nextY`.  Already-visited children are not pushed. -/
def condChildPushes (children : List Child) (visited : List String)
    (centerX y nextY : ℚ) : List QItem :=
  let trueIdx := children.findIdx? fun c => strIncludes c.handleType "true"
  let falseIdx := children.findIdx? fun c =>
    strIncludes c.handleType "left-false" || strIncludes c.handleType "right-false"
  let truePush :=
    match trueIdx with
    | some i =>
      match children[i]? with
      | some c =>
        if visited.contains c.nodeId then []
        else [⟨c.nodeId, centerX, nextY, false⟩]
      | none => []
    | none => []
  let falsePush :=
    match falseIdx with
    | some i =>
      match children[i]? with
      | some c =>
        if visited.contains c.nodeId then []
        else
          let falseCenterX := if strIncludes c.handleType "left"
            then centerX - HORIZONTAL_SPACING else centerX + HORIZONTAL_SPACING
          [⟨c.nodeId, falseCenterX, y, true⟩]
      | none => []
    | none => []
  let otherPushes := children.enum.filterMap fun p =>
    if (some p.1 != trueIdx) && (some p.1 != falseIdx) && !visited.contains p.2.nodeId then
      some ⟨p.2.nodeId, centerX + ((p.1 : ℚ) + 1) * HORIZONTAL_SPACING, nextY, true⟩
    else none
  truePush ++ falsePush ++ otherPushes

/-- The queue entries pushed for the children of a dequeued non-`condition`
node: children fan out horizontally around the parent's `centerX`, spaced
`HORIZONTAL_SPACING`, all at `nextY`. -/
def nonCondPushes (children : List Child) (visited : List String)
    (centerX nextY : ℚ) (isBranch : Bool) : List QItem :=
  children.enum.filterMap fun p =>
    if !visited.contains p.2.nodeId then
      let childCenterX := if children.length > 1
        then centerX + ((p.1 : ℚ) - ((children.length : ℚ) - 1) / 2) * HORIZONTAL_SPACING
        else centerX
      some ⟨p.2.nodeId, childCenterX, nextY, isBranch⟩
    else none

/-- The start nodes (`nodes.filter(n => n.type === 'start')`). -/
def startNodesOf (nodes : List NodeR) : List NodeR :=
  nodes.filter fun n => n.type == "start"

/-- Every id that can ever sit in the BFS queue: the start-node ids (initial
queue) and the edge targets (every later push). -/
def bfsUniverse (nodes : List NodeR) (edges : List EdgeR) : List String :=
  (startNodesOf nodes).map NodeR.id ++ edges.map EdgeR.target

theorem mem_condChildPushes {children : List Child} {visited : List String}
    {centerX y nextY : ℚ} {q : QItem}
    (h : q ∈ condChildPushes children visited centerX y nextY) :
    ∃ c ∈ children, q.nodeId = c.nodeId := by
  simp only [condChildPushes, List.mem_append] at h
  rcases h with (h | h) | h
  · cases htrue : children.findIdx? fun c => strIncludes c.handleType "true" with
    | none => rw [htrue] at h; simp at h
    | some i =>
      rw [htrue] at h
      replace h : q ∈ (match children[i]? with
        | some c =>
          if visited.contains c.nodeId = true then []
          else [(⟨c.nodeId, centerX, nextY, false⟩ : QItem)]
        | none => []) := h
      cases hci : children[i]? with
      | none => rw [hci] at h; simp at h
      | some c =>
        rw [hci] at h
        replace h : q ∈ (if visited.contains c.nodeId = true then []
          else [(⟨c.nodeId, centerX, nextY, false⟩ : QItem)]) := h
        by_cases hv : visited.contains c.nodeId = true
        · rw [if_pos hv] at h; simp at h
        · rw [if_neg hv] at h
          simp only [List.mem_singleton] at h
          exact ⟨c, List.getElem?_mem hci, by rw [h]⟩
  · cases hfalse : children.findIdx? fun c =>
        strIncludes c.handleType "left-false" || strIncludes c.handleType "right-false" with
    | none => rw [hfalse] at h; simp at h
    | some i =>
      rw [hfalse] at h
      replace h : q ∈ (match children[i]? with
        | some c =>
          if visited.contains c.nodeId = true then []
          else [(⟨c.nodeId,
            if strIncludes c.handleType "left" = true then centerX - HORIZONTAL_SPACING
            else centerX + HORIZONTAL_SPACING, y, true⟩ : QItem)]
        | none => []) := h
      cases hci : children[i]? with
      | none => rw [hci] at h; simp at h
      | some c =>
        rw [hci] at h
        replace h : q ∈ (if visited.contains c.nodeId = true then []
          else [(⟨c.nodeId,
            if strIncludes c.handleType "left" = true then centerX - HORIZONTAL_SPACING
            else centerX + HORIZONTAL_SPACING, y, true⟩ : QItem)]) := h
        by_cases hv : visited.contains c.nodeId = true
        · rw [if_pos hv] at h; simp at h
        · rw [if_neg hv] at h
          simp only [List.mem_singleton] at h
          exact ⟨c, List.getElem?_mem hci, by rw [h]⟩
  · simp only [List.mem_filterMap] at h
    obtain ⟨p, hp, hq⟩ := h
    split at hq
    · simp only [Option.some.injEq] at hq
      have hmem : p.2 ∈ children :=
        List.getElem?_mem (List.mem_enum_iff_getElem?.mp hp)
      exact ⟨p.2, hmem, by rw [← hq]⟩
    · simp at hq

theorem mem_nonCondPushes {children : List Child} {visited : List String}
    {centerX nextY : ℚ} {isBranch : Bool} {q : QItem}
    (h : q ∈ nonCondPushes children visited centerX nextY isBranch) :
    ∃ c ∈ children, q.nodeId = c.nodeId := by
  simp only [nonCondPushes, List.mem_filterMap] at h
  obtain ⟨p, hp, hq⟩ := h
  split at hq
  · simp only [Option.some.injEq] at hq
    have hmem : p.2 ∈ children :=
      List.getElem?_mem (List.mem_enum_iff_getElem?.mp hp)
    exact ⟨p.2, hmem, by rw [← hq]⟩
  · simp at hq

theorem mem_childrenOf_target {edges : List EdgeR} {src : String} {c : Child}
    (h : c ∈ childrenOf edges src) : c.nodeId ∈ edges.map EdgeR.target := by
  simp only [childrenOf, List.mem_map, List.mem_filter] at h
  obtain ⟨e, ⟨he, -⟩, hc⟩ := h
  exact List.mem_map.mpr ⟨e, he, by rw [← hc]⟩

theorem filter_notContains_cons_length_lt {U visited : List String} {a : String}
    (haU : a ∈ U) (hav : visited.contains a = false) :
    (U.filter fun u => !((a :: visited).contains u)).length <
      (U.filter fun u => !visited.contains u).length := by
  have key : (U.filter fun u => !((a :: visited).contains u)) =
      (U.filter fun u => !visited.contains u).filter fun u => !(u == a) := by
    rw [List.filter_filter]
    apply List.filter_congr
    intro x _
    simp only [List.contains_cons, Bool.not_or]
  rw [key]
  apply List.length_filter_lt_length_iff_exists.mpr
  refine ⟨a, List.mem_filter.mpr ⟨haU, ?_⟩, ?_⟩
  · rw [hav]
    rfl
  · simp

/-- The BFS loop of `handleAutoLayout` (`while (queue.length > 0)`): dequeue an
item; skip it when already visited; otherwise record its center position, and
push queue entries for its children — the `condition` special case when the
node is a `condition` node with children, the fan-out case otherwise.  Returns
the center-position map and the visited set.  `U` is the universe of ids that
can ever be queued (start-node ids and edge targets); `hq` certifies the queue
stays inside it, which bounds the loop. -/
def bfsAux (nodes : List NodeR) (edges : List EdgeR)
    (queue : List QItem) (visited : List String) (centers : List (String × Pos))
    (hq : ∀ q ∈ queue, q.nodeId ∈ bfsUniverse nodes edges) :
    List (String × Pos) × List String :=
  match queue with
  | [] => (centers, visited)
  | item :: rest =>
    if hv : visited.contains item.nodeId then
      bfsAux nodes edges rest visited centers
        (fun q hq' => hq q (List.mem_cons_of_mem _ hq'))
    else
      let visited' := item.nodeId :: visited
      let centers' := (item.nodeId, (⟨item.centerX, item.y⟩ : Pos)) :: centers
      let node := nodes.find? fun n => n.id == item.nodeId
      let children := childrenOf edges item.nodeId
      let isCondition := (node.map NodeR.type) == some "condition"
      let nodeSize := getNodeSize node
      let nextY := item.y + nodeSize.2 + 50
      let pushes := if isCondition && !children.isEmpty
        then condChildPushes children visited' item.centerX item.y nextY
        else nonCondPushes children visited' item.centerX nextY item.isBranch
      bfsAux nodes edges (rest ++ pushes) visited' centers'
        (by
          intro q hqm
          rcases List.mem_append.mp hqm with hr | hp
          · exact hq q (List.mem_cons_of_mem _ hr)
          · have hchild : ∃ c ∈ children, q.nodeId = c.nodeId := by
              have hp' : q ∈ (if (isCondition && !children.isEmpty) = true
                  then condChildPushes children visited' item.centerX item.y nextY
                  else nonCondPushes children visited' item.centerX nextY item.isBranch) := hp
              by_cases hcond : (isCondition && !children.isEmpty) = true
              · rw [if_pos hcond] at hp'
                exact mem_condChildPushes hp'
              · rw [if_neg hcond] at hp'
                exact mem_nonCondPushes hp'
            obtain ⟨c, hc, hqc⟩ := hchild
            rw [hqc]
            exact List.mem_append_right _ (mem_childrenOf_target hc))
termination_by
  (((bfsUniverse nodes edges).filter fun u => !visited.contains u).length, queue.length)
decreasing_by
  · apply Prod.Lex.right
    simp
  · apply Prod.Lex.left
    exact filter_notContains_cons_length_lt (hq item (List.mem_cons_self item rest))
      (by simpa using hv)

/-- The initial BFS queue: one entry per start node, seeded at
`mainCenterX + idx * HORIZONTAL_SPACING * 3` and `y = 50`. -/
def initQueue (nodes : List NodeR) : List QItem :=
  (startNodesOf nodes).enum.map fun p =>
    ⟨p.2.id, mainCenterX + (p.1 : ℚ) * HORIZONTAL_SPACING * 3, 50, false⟩

theorem initQueue_mem_universe (nodes : List NodeR) (edges : List EdgeR) :
    ∀ q ∈ initQueue nodes, q.nodeId ∈ bfsUniverse nodes edges := by
  intro q hqm
  simp only [initQueue, List.mem_map] at hqm
  obtain ⟨p, hp, hq⟩ := hqm
  have hmem : p.2 ∈ startNodesOf nodes :=
    List.getElem?_mem (List.mem_enum_iff_getElem?.mp hp)
  apply List.mem_append_left
  exact List.mem_map.mpr ⟨p.2, hmem, by rw [← hq]⟩

/-- The whole BFS of `handleAutoLayout`: center positions and visited set
after the queue (seeded from the start nodes) has drained. -/
def bfsRun (nodes : List NodeR) (edges : List EdgeR) :
    List (String × Pos) × List String :=
  bfsAux nodes edges (initQueue nodes) [] [] (initQueue_mem_universe nodes edges)

/-- The pass over `nodes` placing every node the BFS did not visit in a
separate column (`x` starting at `mainCenterX + HORIZONTAL_SPACING * 3`,
`y` advancing by `VERTICAL_SPACING` and wrapping past 600). -/
def unvisitedGo (nodesLeft : List NodeR) (visited : List String)
    (ux uy : ℚ) (centers : List (String × Pos)) : List (String × Pos) :=
  match nodesLeft with
  | [] => centers
  | node :: rest =>
    if !visited.contains node.id then
      let centers' := (node.id, (⟨ux, uy⟩ : Pos)) :: centers
      let uy' := uy + VERTICAL_SPACING
      if uy' > 600 then unvisitedGo rest visited (ux + HORIZONTAL_SPACING) 50 centers'
      else unvisitedGo rest visited ux uy' centers'
    else unvisitedGo rest visited ux uy centers

/-- The final center-position map of `handleAutoLayout`: BFS positions plus
the unreachable-nodes pass. -/
def finalCentersOf (nodes : List NodeR) (edges : List EdgeR) : List (String × Pos) :=
  unvisitedGo nodes (bfsRun nodes edges).2
    (mainCenterX + HORIZONTAL_SPACING * 3) 50 (bfsRun nodes edges).1

/-- `handleAutoLayout` (pure part): no-op on an empty node list; a simple grid
when no start node exists; otherwise BFS placement (with the unreachable-nodes
pass), converting each center position to a top-left position using the node's
effective size.  A node with no computed center is returned unchanged. -/
def autoLayout (nodes : List NodeR) (edges : List EdgeR) : List NodeR :=
  if nodes.length == 0 then nodes
  else if (startNodesOf nodes).length == 0 then
    -- If no start node, just arrange in a grid
    nodes.enum.map fun p =>
      { p.2 with position := ⟨((p.1 % 4 : ℕ) : ℚ) * HORIZONTAL_SPACING + 100,
                              ((p.1 / 4 : ℕ) : ℚ) * VERTICAL_SPACING + 50⟩ }
  else
    let finalCenters := finalCentersOf nodes edges
    nodes.map fun node =>
      match List.lookup node.id finalCenters with
      | none => node
      | some centerPos =>
        { node with position := ⟨centerPos.x - (getNodeSize (some node)).1 / 2,
                                 centerPos.y⟩ }

/-- `handleAutoLayout` at the session level: it calls `setNodes(updatedNodes)`
and never touches the edge collection. -/
def autoLayoutSession (g : GraphState) : GraphState :=
  { g with nodes := autoLayout g.nodes g.edges }

/-- C5: with no node of kind Start, `autoLayout` assigns the i-th node (in
input order) the grid position `((i % 4) * 250 + 100, (i / 4) * 200 + 50)`. -/
theorem c5_grid_fallback (nodes : List NodeR) (edges : List EdgeR)
    (hnostart : ∀ n ∈ nodes, n.type ≠ "start")
    (i : ℕ) (hi : i < nodes.length) :
    ((autoLayout nodes edges)[i]?).map NodeR.position =
      some ⟨((i % 4 : ℕ) : ℚ) * 250 + 100, ((i / 4 : ℕ) : ℚ) * 200 + 50⟩ := by
  have hstart : startNodesOf nodes = [] := by
    rw [startNodesOf, List.filter_eq_nil_iff]
    intro n hn
    simpa using hnostart n hn
  have hne : ¬(nodes.length == 0) = true := by
    simp only [beq_iff_eq]
    omega
  have h2 : (((startNodesOf nodes).length == 0)) = true := by rw [hstart]; rfl
  have hlist : autoLayout nodes edges =
      nodes.enum.map (fun p =>
        { p.2 with position := (⟨((p.1 % 4 : ℕ) : ℚ) * HORIZONTAL_SPACING + 100,
            ((p.1 / 4 : ℕ) : ℚ) * VERTICAL_SPACING + 50⟩ : Pos) }) := by
    rw [autoLayout, if_neg hne, if_pos h2]
  rw [hlist, List.getElem?_map, List.getElem?_enum, List.getElem?_eq_getElem hi]
  rfl

/-- Witness for `c5_grid_fallback`: the second of four Process nodes lands at
`(350, 50)`. -/
theorem c5_grid_fallback_witness :
    ((autoLayout [mkNode "p1" "execution", mkNode "p2" "execution",
        mkNode "p3" "execution", mkNode "p4" "execution"] [])[1]?).map NodeR.position =
      some ⟨350, 50⟩ := by
  have h := c5_grid_fallback
    [mkNode "p1" "execution", mkNode "p2" "execution",
     mkNode "p3" "execution", mkNode "p4" "execution"] []
    (by decide) 1 (by decide)
  rw [h]
  norm_num

/-- C7: the layout is deterministic and pure in its inputs — two invocations
on identical node/edge collections produce identical position maps. -/
theorem c7_layout_deterministic (nodes1 nodes2 : List NodeR) (edges1 edges2 : List EdgeR)
    (hn : nodes1 = nodes2) (he : edges1 = edges2) :
    (autoLayout nodes1 edges1).map (fun n => (n.id, n.position)) =
      (autoLayout nodes2 edges2).map (fun n => (n.id, n.position)) := by
  rw [hn, he]

/-- Witness for `c7_layout_deterministic` at a concrete graph. -/
theorem c7_layout_deterministic_witness :
    (autoLayout [mkNode "s" "start", mkNode "p" "execution"]
        [mkEdge "e1" "s" "p" (some "start-bottom")]).map (fun n => (n.id, n.position)) =
      (autoLayout [mkNode "s" "start", mkNode "p" "execution"]
        [mkEdge "e1" "s" "p" (some "start-bottom")]).map (fun n => (n.id, n.position)) :=
  c7_layout_deterministic _ _ _ _ rfl rfl

/-- C6: when the BFS dequeues a Decision (`condition`) node of effective
height `h` at `(centerX, y)`, the child on the handle containing `'true'` is
queued at the same `centerX` and `y + h + 50`, and the child on the connected
false handle is queued at the parent's own `y`, at `centerX - 250` for the
left handle and `centerX + 250` otherwise (`condChildPushes` is exactly the
Decision branch of the BFS loop; a queued center becomes the node's assigned
center at its first dequeue). -/
theorem c6_decision_branch_placement (D : NodeR) (children : List Child)
    (visited : List String) (centerX y : ℚ) (hD : D.type = "condition") :
    (∀ (i : ℕ) (c : Child),
      (children.findIdx? fun c => strIncludes c.handleType "true") = some i →
      children[i]? = some c → visited.contains c.nodeId = false →
      (⟨c.nodeId, centerX, y + (getNodeSize (some D)).2 + 50, false⟩ : QItem) ∈
        condChildPushes children visited centerX y (y + (getNodeSize (some D)).2 + 50)) ∧
    (∀ (i : ℕ) (c : Child),
      (children.findIdx? fun c => strIncludes c.handleType "left-false" ||
        strIncludes c.handleType "right-false") = some i →
      children[i]? = some c → visited.contains c.nodeId = false →
      ((strIncludes c.handleType "left" = true →
        (⟨c.nodeId, centerX - 250, y, true⟩ : QItem) ∈
          condChildPushes children visited centerX y (y + (getNodeSize (some D)).2 + 50)) ∧
       (strIncludes c.handleType "left" = false →
        (⟨c.nodeId, centerX + 250, y, true⟩ : QItem) ∈
          condChildPushes children visited centerX y (y + (getNodeSize (some D)).2 + 50)))) := by
  constructor
  · intro i c ht hc hv
    simp only [condChildPushes, List.mem_append]
    left; left
    rw [ht]
    show _ ∈ (match children[i]? with
      | some c =>
        if visited.contains c.nodeId = true then []
        else [(⟨c.nodeId, centerX, y + (getNodeSize (some D)).2 + 50, false⟩ : QItem)]
      | none => [])
    rw [hc]
    show _ ∈ (if visited.contains c.nodeId = true then []
      else [(⟨c.nodeId, centerX, y + (getNodeSize (some D)).2 + 50, false⟩ : QItem)])
    rw [if_neg (by rw [hv]; exact Bool.false_ne_true)]
    exact List.mem_singleton.mpr rfl
  · intro i c hf hc hv
    have hbase : ∀ cx : ℚ,
        (⟨c.nodeId, cx, y, true⟩ : QItem) ∈
          condChildPushes children visited centerX y (y + (getNodeSize (some D)).2 + 50) ↔
        (⟨c.nodeId, cx, y, true⟩ : QItem) ∈
          ([(⟨c.nodeId,
              if strIncludes c.handleType "left" = true then centerX - HORIZONTAL_SPACING
              else centerX + HORIZONTAL_SPACING, y, true⟩ : QItem)] : List QItem) ∨
        (⟨c.nodeId, cx, y, true⟩ : QItem) ∈
          (condChildPushes children visited centerX y
            (y + (getNodeSize (some D)).2 + 50)) := by
      intro cx
      constructor
      · exact fun h => Or.inr h
      · rintro (h | h)
        · simp only [condChildPushes, List.mem_append]
          left; right
          rw [hf]
          show _ ∈ (match children[i]? with
            | some c =>
              if visited.contains c.nodeId = true then []
              else [(⟨c.nodeId,
                if strIncludes c.handleType "left" = true then centerX - HORIZONTAL_SPACING
                else centerX + HORIZONTAL_SPACING, y, true⟩ : QItem)]
            | none => [])
          rw [hc]
          show _ ∈ (if visited.contains c.nodeId = true then []
            else [(⟨c.nodeId,
              if strIncludes c.handleType "left" = true then centerX - HORIZONTAL_SPACING
              else centerX + HORIZONTAL_SPACING, y, true⟩ : QItem)])
          rw [if_neg (by rw [hv]; exact Bool.false_ne_true)]
          exact h
        · exact h
    constructor
    · intro hl
      refine (hbase (centerX - 250)).mpr (Or.inl ?_)
      rw [if_pos hl]
      exact List.mem_singleton.mpr rfl
    · intro hl
      refine (hbase (centerX + 250)).mpr (Or.inl ?_)
      rw [if_neg (by rw [hl]; exact Bool.false_ne_true)]
      exact List.mem_singleton.mpr rfl

/-- Witness for `c6_decision_branch_placement`: a Decision node of default
size 150×150 dequeued at `(400, 50)` queues its true child centered at
`(400, 250)` and its left-false child at `(150, 50)`. -/
theorem c6_decision_branch_placement_witness :
    (⟨"A", 400, 250, false⟩ : QItem) ∈
      condChildPushes [⟨"A", "condition-bottom-true"⟩, ⟨"B", "condition-left-false"⟩]
        ["D"] 400 50 250 ∧
    (⟨"B", 150, 50, true⟩ : QItem) ∈
      condChildPushes [⟨"A", "condition-bottom-true"⟩, ⟨"B", "condition-left-false"⟩]
        ["D"] 400 50 250 := by
  have h := c6_decision_branch_placement (mkNode "D" "condition")
    [⟨"A", "condition-bottom-true"⟩, ⟨"B", "condition-left-false"⟩] ["D"] 400 50 rfl
  have h250 : (50 : ℚ) + (getNodeSize (some (mkNode "D" "condition"))).2 + 50 = 250 := by
    norm_num [getNodeSize, mkNode, qTruthy]
  constructor
  · have h1 := h.1 0 ⟨"A", "condition-bottom-true"⟩ (by decide) (by decide) (by decide)
    rw [h250] at h1
    exact h1
  · have h2 := (h.2 1 ⟨"B", "condition-left-false"⟩ (by decide) (by decide) (by decide)).1
      (by decide)
    rw [h250] at h2
    have hx : (400 : ℚ) - 250 = 150 := by norm_num
    rw [hx] at h2
    exact h2

theorem lookup_isSome_cons {l : List (String × Pos)} {a k : String} {v : Pos}
    (h : (List.lookup a l).isSome) : (List.lookup a ((k, v) :: l)).isSome := by
  rw [List.lookup_cons]
  cases hak : a == k
  · simpa using h
  · simp

theorem lookup_self_cons (l : List (String × Pos)) (a : String) (v : Pos) :
    (List.lookup a ((a, v) :: l)).isSome := by
  rw [List.lookup_cons]
  simp

/-- Every id the BFS has visited has a recorded center position. -/
theorem bfsAux_covers (nodes : List NodeR) (edges : List EdgeR)
    (queue : List QItem) (visited : List String) (centers : List (String × Pos))
    (hq : ∀ q ∈ queue, q.nodeId ∈ bfsUniverse nodes edges)
    (hpre : ∀ id ∈ visited, (List.lookup id centers).isSome) :
    ∀ id ∈ (bfsAux nodes edges queue visited centers hq).2,
      (List.lookup id (bfsAux nodes edges queue visited centers hq).1).isSome := by
  revert hpre
  induction queue, visited, centers, hq using bfsAux.induct nodes edges with
  | case1 visited centers hq hq2 =>
    intro hpre
    rw [bfsAux]
    exact hpre
  | case2 visited centers item rest hq hcont hq2 ih =>
    intro hpre
    rw [bfsAux]
    simp only [dif_pos hcont]
    exact ih hpre
  | case3 visited centers item rest hq hncont visited' centers' node children isCond nsz nY
      pushes hq2 ih =>
    intro hpre
    rw [bfsAux]
    simp only [dif_neg hncont]
    refine ih ?_
    intro id hid
    rcases List.mem_cons.mp hid with rfl | hmem
    · exact lookup_self_cons _ _ _
    · exact lookup_isSome_cons (hpre id hmem)

/-- The unreachable-nodes pass never removes a recorded center. -/
theorem unvisitedGo_mono {a : String} :
    ∀ (nodesLeft : List NodeR) (visited : List String) (ux uy : ℚ)
      (centers : List (String × Pos)),
      (List.lookup a centers).isSome →
      (List.lookup a (unvisitedGo nodesLeft visited ux uy centers)).isSome := by
  intro nodesLeft
  induction nodesLeft with
  | nil =>
    intro visited ux uy centers h
    rw [unvisitedGo]
    exact h
  | cons node rest ih =>
    intro visited ux uy centers h
    rw [unvisitedGo]
    by_cases hv : (!visited.contains node.id) = true
    · rw [if_pos hv]
      by_cases hw : uy + VERTICAL_SPACING > 600
      · rw [if_pos hw]
        exact ih _ _ _ _ (lookup_isSome_cons h)
      · rw [if_neg hw]
        exact ih _ _ _ _ (lookup_isSome_cons h)
    · rw [if_neg hv]
      exact ih _ _ _ _ h

/-- The unreachable-nodes pass records a center for every unvisited node. -/
theorem unvisitedGo_covers :
    ∀ (nodesLeft : List NodeR) (visited : List String) (ux uy : ℚ)
      (centers : List (String × Pos)) (n : NodeR),
      n ∈ nodesLeft → visited.contains n.id = false →
      (List.lookup n.id (unvisitedGo nodesLeft visited ux uy centers)).isSome := by
  intro nodesLeft
  induction nodesLeft with
  | nil =>
    intro _ _ _ _ _ hmem _
    simp at hmem
  | cons node rest ih =>
    intro visited ux uy centers n hmem hnv
    rcases List.mem_cons.mp hmem with rfl | hmem'
    · rw [unvisitedGo]
      rw [if_pos (by rw [hnv]; rfl)]
      by_cases hw : uy + VERTICAL_SPACING > 600
      · rw [if_pos hw]
        exact unvisitedGo_mono _ _ _ _ _ (lookup_self_cons _ _ _)
      · rw [if_neg hw]
        exact unvisitedGo_mono _ _ _ _ _ (lookup_self_cons _ _ _)
    · rw [unvisitedGo]
      by_cases hv : (!visited.contains node.id) = true
      · rw [if_pos hv]
        by_cases hw : uy + VERTICAL_SPACING > 600
        · rw [if_pos hw]
          exact ih _ _ _ _ _ hmem' hnv
        · rw [if_neg hw]
          exact ih _ _ _ _ _ hmem' hnv
      · rw [if_neg hv]
        exact ih _ _ _ _ _ hmem' hnv

/-- Every node of the graph has a computed center after the BFS plus the
unreachable-nodes pass. -/
theorem finalCentersOf_covers (nodes : List NodeR) (edges : List EdgeR)
    (n : NodeR) (hmem : n ∈ nodes) :
    (List.lookup n.id (finalCentersOf nodes edges)).isSome := by
  rw [finalCentersOf]
  by_cases hv : (bfsRun nodes edges).2.contains n.id = true
  · have h1 : (List.lookup n.id (bfsRun nodes edges).1).isSome := by
      apply bfsAux_covers nodes edges (initQueue nodes) [] []
        (initQueue_mem_universe nodes edges) (by intro id hid; simp at hid)
      simpa using hv
    exact unvisitedGo_mono _ _ _ _ _ h1
  · exact unvisitedGo_covers _ _ _ _ _ _ hmem (by simpa using hv)

/-- Every node field except `position`. -/
def nodeFrameFields (n : NodeR) :=
  (n.id, n.type, n.data, n.width, n.height, n.measuredW, n.measuredH,
   n.styleW, n.styleH, n.selected)

/-- C10: the layout never touches the edge collection, keeps the node list
length and order, modifies nothing but each node's `position`, and (in the
BFS branch) assigns every node a computed center — via the BFS or the
unreachable-nodes pass — from which its new top-left position is derived. -/
theorem c10_layout_frame (g : GraphState) :
    (autoLayoutSession g).edges = g.edges ∧
    (autoLayout g.nodes g.edges).length = g.nodes.length ∧
    (∀ i : ℕ, ((autoLayout g.nodes g.edges)[i]?).map nodeFrameFields =
      (g.nodes[i]?).map nodeFrameFields) ∧
    (startNodesOf g.nodes ≠ [] →
      ∀ n ∈ g.nodes, (List.lookup n.id (finalCentersOf g.nodes g.edges)).isSome) ∧
    (startNodesOf g.nodes ≠ [] →
      ∀ (i : ℕ) (n : NodeR), g.nodes[i]? = some n →
        ∃ c : Pos, List.lookup n.id (finalCentersOf g.nodes g.edges) = some c ∧
          (autoLayout g.nodes g.edges)[i]? =
            some { n with position := ⟨c.x - (getNodeSize (some n)).1 / 2, c.y⟩ }) := by
  refine ⟨rfl, ?_, ?_, ?_, ?_⟩
  · rw [autoLayout]
    by_cases h0 : (g.nodes.length == 0) = true
    · rw [if_pos h0]
    · rw [if_neg h0]
      by_cases h1 : ((startNodesOf g.nodes).length == 0) = true
      · rw [if_pos h1]
        simp [List.enum_length]
      · rw [if_neg h1]
        simp
  · intro i
    rw [autoLayout]
    by_cases h0 : (g.nodes.length == 0) = true
    · rw [if_pos h0]
    · rw [if_neg h0]
      by_cases h1 : ((startNodesOf g.nodes).length == 0) = true
      · rw [if_pos h1]
        rw [List.getElem?_map, List.getElem?_enum]
        cases hin : g.nodes[i]? with
        | none => rfl
        | some n => rfl
      · rw [if_neg h1]
        simp only [List.getElem?_map]
        cases hin : g.nodes[i]? with
        | none => rfl
        | some n =>
          simp only [Option.map_some']
          cases hc : List.lookup n.id (finalCentersOf g.nodes g.edges) with
          | none => simp [hc]
          | some c => simp [hc, nodeFrameFields]
  · intro _ n hmem
    exact finalCentersOf_covers g.nodes g.edges n hmem
  · intro hstart i n hin
    have hmem : n ∈ g.nodes := List.getElem?_mem hin
    have hsome := finalCentersOf_covers g.nodes g.edges n hmem
    obtain ⟨c, hc⟩ := Option.isSome_iff_exists.mp hsome
    refine ⟨c, hc, ?_⟩
    have hne : g.nodes ≠ [] := by
      intro hnil
      rw [hnil] at hmem
      simp at hmem
    have h0 : ¬(g.nodes.length == 0) = true := by
      simp only [beq_iff_eq]
      intro h
      exact hne (List.length_eq_zero.mp h)
    have h1 : ¬((startNodesOf g.nodes).length == 0) = true := by
      simp only [beq_iff_eq]
      intro h
      exact hstart (List.length_eq_zero.mp h)
    rw [autoLayout, if_neg h0, if_neg h1]
    simp only [List.getElem?_map, hin, Option.map_some']
    simp [hc]

/-- Witness for `c10_layout_frame` on a one-start-node graph. -/
theorem c10_layout_frame_witness :
    (autoLayoutSession ⟨[mkNode "s" "start"], []⟩).edges = [] ∧
    (∀ n ∈ [mkNode "s" "start"],
      (List.lookup n.id (finalCentersOf [mkNode "s" "start"] [])).isSome) ∧
    (∃ c : Pos, List.lookup (mkNode "s" "start").id (finalCentersOf [mkNode "s" "start"] []) =
        some c ∧
      (autoLayout [mkNode "s" "start"] [])[0]? =
        some { mkNode "s" "start" with
          position := ⟨c.x - (getNodeSize (some (mkNode "s" "start"))).1 / 2, c.y⟩ }) := by
  refine ⟨(c10_layout_frame ⟨[mkNode "s" "start"], []⟩).1, ?_, ?_⟩
  · exact (c10_layout_frame ⟨[mkNode "s" "start"], []⟩).2.2.2.1 (by decide)
  · exact (c10_layout_frame ⟨[mkNode "s" "start"], []⟩).2.2.2.2 (by decide) 0 _ rfl

/-- Witness for `c9_load_validation_amended` at a concrete parsed file. -/
theorem c9_load_validation_amended_witness :
    loadProject (some (Json.obj [("nodes", Json.null), ("edges", Json.arr [])])) = none ∧
    handleProjectFileChange (some (Json.obj [("nodes", Json.null), ("edges", Json.arr [])]))
        ⟨[], []⟩ = some (⟨[], []⟩, true) := by
  constructor
  · exact (c9_load_validation_amended.1 _).mpr (Or.inr ⟨_, rfl, Or.inl rfl⟩)
  · exact c9_load_validation_amended.2 _ _ rfl
